import Mathlib

/-!
Verification of the letter-constraint word filter of the wordle-helper
backend (`src/solver_backend/src/handlers/game.rs`), against its
natural-language specification.

The handler `find_letters` is embedded as a pure function over
  * the caller's `Authorization` header (an `Option (Option String)`:
    absent header, header whose bytes do not convert to a string, or the
    header text),
  * an abstract token verifier (`verify_token` lives in
    `utils/jwt_utils.rs`, outside the filter; it is a parameter
    `String → Option Bool`, `none` standing for `Err`),
  * an abstract corpus collaborator `fetchAll : String → Except DbError
    (List String)` standing for `sqlx::query_scalar(&query).fetch_all`,
  * the JSON request body `RequestLetters`.

The PostgreSQL behaviour of the three generated WHERE conjuncts
(`word ILIKE '<exact>'`, `word ~* '(?=.*c)…'`, `NOT (word ~* '.*[<incorrect>].*')`)
is modelled by `pgEval` below; its doc comment states the exact scope of
that model.
-/

namespace Solver

/-- Request body of `POST /game/general-letters`.  The struct
`RequestLetters` is declared in `models/game_models.rs`; its three string
fields are read off its uses in `game.rs` (`letters.exact`,
`letters.correct`, `letters.incorrect`) and the request shape in the spec:
`exact` is the positional pattern, `correct` the required letters,
`incorrect` the excluded letters. -/
structure RequestLetters where
  exact : String
  correct : String
  incorrect : String
deriving DecidableEq

/-- Failure of the corpus collaborator: the generated query text is
rejected (for example an invalid regular expression), or the backend is
unreachable. -/
inductive DbError where
  | invalidRegex : DbError
  | unavailable : DbError
deriving DecidableEq

/-- The three observable responses of the handler: `Unauthorized().body(..)`,
`InternalServerError().finish()`, and `Ok().json(words)`. -/
inductive Resp where
  | unauthorized : Resp
  | serverError : Resp
  | ok : List String → Resp
deriving DecidableEq

/-- Characters of a string, canonicalized to lower case (ASCII), matching
the case-insensitive comparison done by `ILIKE` and `~*`. -/
def lowerChars (s : String) : List Char := s.toList.map Char.toLower

/-- Fuelled matcher for the SQL `LIKE` pattern language: `%` matches any
(possibly empty) sequence, `_` matches exactly one character, every other
character matches itself.  The fuel only serves to make the recursion
structural; `like` below always supplies enough fuel.  (The `ESCAPE`
feature of `LIKE` is not used by any pattern this development reasons
about and is not modelled: a backslash matches itself here.) -/
def likeAux : Nat → List Char → List Char → Bool
  | 0, _, _ => false
  | _ + 1, [], [] => true
  | _ + 1, [], _ :: _ => false
  | fuel + 1, c :: ps, ws =>
    if c = '%' then
      likeAux fuel ps ws ||
        (match ws with
          | [] => false
          | _ :: ws' => likeAux fuel (c :: ps) ws')
    else
      match ws with
      | [] => false
      | x :: ws' => (c == '_' || c == x) && likeAux fuel ps ws'

/-- Whole-string `LIKE` match (SQL `LIKE` is anchored at both ends). -/
def like (p w : List Char) : Bool := likeAux (p.length + w.length + 1) p w

/-- PostgreSQL `word ILIKE '<pat>'`: case-insensitive anchored `LIKE`. -/
def matchesIlike (pat w : String) : Bool := like (lowerChars pat) (lowerChars w)

/-- PostgreSQL `word ~* '(?=.*c₁)(?=.*c₂)…'` for the lookahead pattern the
handler builds from `letters.correct`: the unanchored case-insensitive
regex match succeeds exactly when every listed character occurs somewhere
in the word (position `0` satisfies all the lookaheads at once).  Valid
for characters without a regex meta-role, i.e. for letters. -/
def matchesCorrect (correct w : String) : Bool :=
  correct.toList.all (fun c => (lowerChars w).contains c.toLower)

/-- PostgreSQL `word ~* '.*[<incorrect>].*'` for a NONEMPTY `incorrect`:
the bracket expression matches any one of the listed characters, so the
whole regex matches exactly when some character of the word is among
them (case-insensitively).  Valid for letters, which have no special
meaning inside a bracket expression. -/
def matchesExcludedClass (incorrect w : String) : Bool :=
  (lowerChars w).any (fun d => (lowerChars incorrect).contains d)

/-- Conjunction of the three WHERE conjuncts of the generated query, for
one candidate row `w` of `word_list`. -/
def pgRowMatches (l : RequestLetters) (w : String) : Bool :=
  matchesIlike l.exact w && matchesCorrect l.correct w &&
    !(matchesExcludedClass l.incorrect w)

/-- Outcome of executing the generated query against a snapshot `db` of
`word_list`, following documented PostgreSQL semantics of the constructs
the handler emits.  When `letters.incorrect` is empty the query text
contains the regex `.*[].*`, whose bracket expression is unterminated
(POSIX reads the first `]` as a literal member and finds no closing
bracket), so PostgreSQL rejects the query: `invalid regular expression:
brackets [] not balanced`.  Scope of this model: field strings made of
letters, `_` and other characters with no special meaning to `LIKE`,
regexes or SQL string literals; it does not model `%`/backslash in
`exact`, regex metacharacters in `correct`/`incorrect`, or quote
characters (for quote injection see `buildQuery` and `sqlCodeSegments`). -/
def pgEval (db : List String) (l : RequestLetters) : Except DbError (List String) :=
  if l.incorrect.isEmpty then Except.error DbError.invalidRegex
  else Except.ok (db.filter (fun w => pgRowMatches l w))

/-- The loop
`for letter in letters.correct.chars() { correct_pattern.push_str(&format!("(?=.*{})", letter)) }`. -/
def correctPattern (correct : String) : String :=
  correct.toList.foldl (fun acc c => acc ++ "(?=.*" ++ String.mk [c] ++ ")") ""

/-- The query string built by
`format!("SELECT word FROM word_list WHERE word ILIKE '{}' AND word ~* '{}' AND NOT (word ~* '.*[{}].*')", letters.exact, correct_pattern, letters.incorrect)`
(the `\x27` escapes are ASCII single quotes). -/
def buildQuery (l : RequestLetters) : String :=
  "SELECT word FROM word_list WHERE word ILIKE \x27" ++ l.exact ++
    "\x27 AND word ~* \x27" ++ correctPattern l.correct ++
    "\x27 AND NOT (word ~* \x27.*[" ++ l.incorrect ++ "].*\x27)"

/-- Fuelled kernel of Rust's `str::trim_start_matches`: repeatedly remove
the pattern from the front while it is a prefix.  Each removal drops at
least one character (nonempty pattern), so fuel `s.length` suffices. -/
def stripAllAux : Nat → List Char → List Char → List Char
  | 0, _, s => s
  | fuel + 1, p, s =>
    if !p.isEmpty && p.isPrefixOf s then stripAllAux fuel p (List.drop p.length s)
    else s

/-- Rust `str::starts_with` on our strings. -/
def startsWithStr (s pre : String) : Bool := pre.toList.isPrefixOf s.toList

/-- Rust `str::trim_start_matches pat`: all leading repetitions of `pat`
removed. -/
def trimStartMatchesStr (s pat : String) : String :=
  String.mk (stripAllAux s.toList.length pat.toList s.toList)

/-- The helper `get_bearer_token`: read the `Authorization` header, give
up if it is absent (`none`) or its bytes do not convert to a string
(`some none`), otherwise demand the `"Bearer "` prefix and return the
value with `trim_start_matches("Bearer ")` applied. -/
def getBearerToken (authHeader : Option (Option String)) : Option String :=
  match authHeader with
  | some (some headerValue) =>
    if startsWithStr headerValue "Bearer " then
      some (trimStartMatchesStr headerValue "Bearer ")
    else none
  | _ => none

/-- Instrumentation of the control flow of `find_letters` answering one
question: does execution reach the `sqlx::query_scalar(..).fetch_all`
call?  It does exactly when neither early `Unauthorized` return fires. -/
def corpusQueried (verify : String → Option Bool)
    (authHeader : Option (Option String)) : Bool :=
  match getBearerToken authHeader with
  | none => false
  | some accessToken => (verify accessToken).getD false

/-- The handler `find_letters`: extract the bearer token (missing token →
401), validate it with `verify_token(..).unwrap_or(false)` (invalid or
unverifiable → 401), build the query, run it (error → 500), and return
the fetched words as the success body. -/
def findLetters (verify : String → Option Bool)
    (fetchAll : String → Except DbError (List String))
    (authHeader : Option (Option String)) (letters : RequestLetters) : Resp :=
  match getBearerToken authHeader with
  | none => Resp.unauthorized
  | some accessToken =>
    let tokenValid := (verify accessToken).getD false
    if !tokenValid then Resp.unauthorized
    else
      match fetchAll (buildQuery letters) with
      | Except.ok words => Resp.ok words
      | Except.error _ => Resp.serverError

/-- Spec §4.1, predicate 1, stated from the spec's words over
case-canonicalized characters: the word has the same length as `exact`,
and at every position holding a concrete (non-wildcard) character the
word agrees with `exact`; wildcard positions (`_`, the single-character
wildcard of the pattern language the corpus accepts) are unconstrained. -/
def specPositional (exact w : String) : Prop :=
  (lowerChars w).length = (lowerChars exact).length ∧
    ∀ i, i < (lowerChars exact).length →
      (lowerChars exact).getD i '_' ≠ '_' →
      (lowerChars w).getD i '_' = (lowerChars exact).getD i '_'

/-- Spec §4.1, predicate 2: every required letter occurs somewhere in the
word, case-insensitively. -/
def specRequired (required w : String) : Prop :=
  ∀ c ∈ required.toList, c.toLower ∈ lowerChars w

/-- Spec §4.1, predicate 3: no excluded letter occurs anywhere in the
word, case-insensitively. -/
def specExcluded (excluded w : String) : Prop :=
  ∀ c ∈ excluded.toList, c.toLower ∉ lowerChars w

/-- Conjunction of the three predicates of spec §4.1. -/
def specMatches (l : RequestLetters) (w : String) : Prop :=
  specPositional l.exact w ∧ specRequired l.correct w ∧ specExcluded l.incorrect w

instance specPositionalDecidable (exact w : String) :
    Decidable (specPositional exact w) := by
  unfold specPositional; infer_instance

instance specRequiredDecidable (required w : String) :
    Decidable (specRequired required w) := by
  unfold specRequired; infer_instance

instance specExcludedDecidable (excluded w : String) :
    Decidable (specExcluded excluded w) := by
  unfold specExcluded; infer_instance

instance specMatchesDecidable (l : RequestLetters) (w : String) :
    Decidable (specMatches l w) := by
  unfold specMatches; infer_instance

/-- Well-formed `exact` character per the spec's data model (§3): a
letter, or the wildcard marker of the pattern language the corpus
accepts (`_`). -/
def wfExactChar (c : Char) : Prop := c.isAlpha = true ∨ c = '_'

instance wfExactCharDecidable (c : Char) : Decidable (wfExactChar c) := by
  unfold wfExactChar; infer_instance

/-- Well-formed request per the spec's data model (§3): `exact` is made
of concrete letters and wildcards, `required` and `excluded` are sets of
letters. -/
def wfRequest (l : RequestLetters) : Prop :=
  (∀ c ∈ l.exact.toList, wfExactChar c) ∧
    (∀ c ∈ l.correct.toList, c.isAlpha = true) ∧
    (∀ c ∈ l.incorrect.toList, c.isAlpha = true)

instance wfRequestDecidable (l : RequestLetters) : Decidable (wfRequest l) := by
  unfold wfRequest; infer_instance

/-- ASCII single quote, the delimiter of SQL string literals. -/
def quoteChar : Char := Char.ofNat 39

/-- Split a character list at every occurrence of `sep` (mirrors
`String.splitOn` for a one-character separator, implemented structurally
so the kernel can evaluate it). -/
def splitOnChar (sep : Char) : List Char → List (List Char)
  | [] => [[]]
  | c :: rest =>
    let r := splitOnChar sep rest
    if c = sep then [] :: r
    else
      match r with
      | [] => [[c]]
      | x :: xs => (c :: x) :: xs

/-- Keep the entries at even positions of a list. -/
def evenEntries : List (List Char) → List (List Char)
  | [] => []
  | [x] => [x]
  | x :: _ :: rest => x :: evenEntries rest

/-- Code structure of a SQL text: the fragments lying OUTSIDE single-quoted
string literals, under the naive lexing that alternates code and literal
at each quote.  For the query template with quote-free fields this is a
fixed list of template fragments; caller text that escapes its literal
shows up here. -/
def sqlCodeSegments (q : String) : List String :=
  (evenEntries (splitOnChar quoteChar q.toList)).map String.mk

/-- Token verifier accepting every token (a run where `verify_token`
returns `Ok(true)`). -/
def alwaysValid : String → Option Bool := fun _ => some true

/-- Token verifier rejecting every token (a run where `verify_token`
returns `Ok(false)`). -/
def neverValid : String → Option Bool := fun _ => some false

/-- A request carrying a well-formed bearer credential. -/
def authedHeader : Option (Option String) := some (some "Bearer token123")

/-- Splitting a bounded universal over `Nat` at its first index. -/
theorem forallLtSucc {n : Nat} {P : Nat → Prop} :
    (∀ i, i < n + 1 → P i) ↔ P 0 ∧ ∀ i, i < n → P (i + 1) := by
  constructor
  · intro h
    exact ⟨h 0 (Nat.succ_pos n), fun i hi => h (i + 1) (Nat.succ_lt_succ hi)⟩
  · rintro ⟨h0, h⟩ i hi
    cases i with
    | zero => exact h0
    | succ j => exact h j (Nat.lt_of_succ_lt_succ hi)

/-- Characterization of the `LIKE` matcher on patterns without the `%`
wildcard: the word must have the pattern's length, and must agree with
the pattern at every position not holding the `_` wildcard. -/
theorem likeAux_eq_posMatch (fuel : Nat) :
    ∀ p w : List Char, '%' ∉ p → p.length + w.length < fuel →
      (likeAux fuel p w = true ↔
        (w.length = p.length ∧
          ∀ i, i < p.length → p.getD i '_' ≠ '_' → w.getD i '_' = p.getD i '_')) := by
  induction fuel with
  | zero =>
    intro p w _ hfuel
    exact absurd hfuel (Nat.not_lt_zero _)
  | succ n ih =>
    intro p w hp hfuel
    cases p with
    | nil =>
      cases w with
      | nil => simp [likeAux]
      | cons x xs => simp [likeAux]
    | cons c ps =>
      have hc : ¬ c = '%' := fun h => hp (h ▸ List.mem_cons_self c ps)
      have hps : '%' ∉ ps := fun h => hp (List.mem_cons_of_mem _ h)
      cases w with
      | nil =>
        simp only [likeAux, if_neg hc]
        simp
      | cons x xs =>
        have hrec := ih ps xs hps (by
          simp only [List.length_cons] at hfuel
          omega)
        rw [show likeAux (n + 1) (c :: ps) (x :: xs) =
              ((c == '_' || c == x) && likeAux n ps xs) by simp [likeAux, hc]]
        rw [Bool.and_eq_true, hrec]
        simp only [List.length_cons, forallLtSucc, List.getD_cons_zero,
          List.getD_cons_succ]
        constructor
        · rintro ⟨hcx, hlen, hall⟩
          rcases (by simpa using hcx : c = '_' ∨ c = x) with hcu | hcx'
          · exact ⟨by omega, fun h => absurd hcu h, hall⟩
          · exact ⟨by omega, fun _ => hcx'.symm, hall⟩
        · rintro ⟨hlen, h0, hall⟩
          refine ⟨?_, by omega, hall⟩
          by_cases hcu : c = '_'
          · simp [hcu]
          · have := h0 hcu
            simp [this]

/-- Value of `Char.ofNat` on a valid code point. -/
theorem char_toNat_ofNat_valid {n : Nat} (h : n.isValidChar) :
    (Char.ofNat n).toNat = n := by
  rw [Char.ofNat, dif_pos h]
  rfl

/-- Lowercasing a basic latin letter lands in the lowercase range. -/
theorem toLower_toNat_of_alpha (c : Char) (h : c.isAlpha = true) :
    97 ≤ c.toLower.toNat ∧ c.toLower.toNat ≤ 122 := by
  simp only [Char.isAlpha, Char.isUpper, Char.isLower, Bool.or_eq_true,
    Bool.and_eq_true, decide_eq_true_eq] at h
  have hrange : (65 ≤ c.toNat ∧ c.toNat ≤ 90) ∨ (97 ≤ c.toNat ∧ c.toNat ≤ 122) := by
    rcases h with ⟨h1, h2⟩ | ⟨h1, h2⟩
    · exact Or.inl ⟨UInt32.le_toNat_of_le (by decide) h1,
        UInt32.toNat_le_of_le (by decide) h2⟩
    · exact Or.inr ⟨UInt32.le_toNat_of_le (by decide) h1,
        UInt32.toNat_le_of_le (by decide) h2⟩
  rcases hrange with ⟨h1, h2⟩ | ⟨h1, h2⟩
  · have hval : (c.toNat + 32).isValidChar := Or.inl (by omega)
    have heq : c.toLower.toNat = c.toNat + 32 := by
      simp only [Char.toLower]
      rw [if_pos ⟨h1, h2⟩]
      exact char_toNat_ofNat_valid hval
    omega
  · have heq : c.toLower = c := by
      simp only [Char.toLower]
      rw [if_neg (by omega)]
    rw [heq]
    exact ⟨h1, h2⟩

/-- A well-formed `exact` character never lowercases to the `%` wildcard. -/
theorem toLower_ne_pct (c : Char) (h : wfExactChar c) : c.toLower ≠ '%' := by
  rcases h with h | rfl
  · intro hEq
    have hr := toLower_toNat_of_alpha c h
    have h37 : c.toLower.toNat = 37 := by rw [hEq]; rfl
    omega
  · decide

/-- The `ILIKE` conjunct agrees with the spec's positional predicate on
well-formed patterns. -/
theorem matchesIlike_iff_specPositional (exact w : String)
    (hwf : ∀ c ∈ exact.toList, wfExactChar c) :
    matchesIlike exact w = true ↔ specPositional exact w := by
  have hp : '%' ∉ lowerChars exact := by
    intro hm
    rcases List.mem_map.mp hm with ⟨c, hc, hcl⟩
    exact toLower_ne_pct c (hwf c hc) hcl
  unfold matchesIlike like specPositional
  exact likeAux_eq_posMatch _ _ _ hp (by omega)

/-- The lookahead conjunct agrees with the spec's required-letters
predicate. -/
theorem matchesCorrect_iff (correct w : String) :
    matchesCorrect correct w = true ↔ specRequired correct w := by
  unfold matchesCorrect specRequired
  simp

/-- The negated bracket-expression conjunct agrees with the spec's
excluded-letters predicate. -/
theorem matchesExcluded_iff (excluded w : String) :
    matchesExcludedClass excluded w = false ↔ specExcluded excluded w := by
  unfold matchesExcludedClass specExcluded
  rw [← Bool.not_eq_true, List.any_eq_true]
  constructor
  · intro h c hc hmem
    exact h ⟨c.toLower, hmem, List.elem_iff.mpr (List.mem_map_of_mem _ hc)⟩
  · intro h hex
    rcases hex with ⟨d, hdw, hdle⟩
    rcases List.mem_map.mp (List.elem_iff.mp hdle) with ⟨c, hc, rfl⟩
    exact h c hc hdw

/-- The generated row predicate is exactly the conjunction of the three
predicates of spec §4.1, for well-formed requests. -/
theorem pgRowMatches_iff_specMatches (l : RequestLetters) (w : String)
    (hwf : wfRequest l) :
    pgRowMatches l w = true ↔ specMatches l w := by
  unfold pgRowMatches specMatches
  rw [Bool.and_eq_true, Bool.and_eq_true, Bool.not_eq_true',
    matchesIlike_iff_specPositional _ _ hwf.1, matchesCorrect_iff,
    matchesExcluded_iff]
  exact and_assoc

/-- A success response means the authorization gate passed and the fetch
call returned exactly the response's word list. -/
theorem findLetters_ok_fetch (verify : String → Option Bool)
    (fetchAll : String → Except DbError (List String))
    (authHeader : Option (Option String)) (l : RequestLetters) (r : List String)
    (hok : findLetters verify fetchAll authHeader l = Resp.ok r) :
    fetchAll (buildQuery l) = Except.ok r := by
  unfold findLetters at hok
  cases hgb : getBearerToken authHeader with
  | none =>
    rw [hgb] at hok
    exact absurd hok (by simp)
  | some tok =>
    rw [hgb] at hok
    by_cases hv : (verify tok).getD false = true
    · simp only [hv, Bool.not_true, Bool.false_eq_true, if_false] at hok
      cases hfetch : fetchAll (buildQuery l) with
      | ok ws =>
        rw [hfetch] at hok
        simp only [Resp.ok.injEq] at hok
        rw [hok]
      | error e =>
        rw [hfetch] at hok
        exact absurd hok (by simp)
    · rw [Bool.not_eq_true] at hv
      simp only [hv, Bool.not_false, if_true] at hok
      exact absurd hok (by simp)

/-- With the corpus collaborator behaving as PostgreSQL on the generated
query, a success response is exactly the filtered snapshot. -/
theorem findLetters_ok_filter (verify : String → Option Bool)
    (fetchAll : String → Except DbError (List String))
    (authHeader : Option (Option String)) (db : List String)
    (l : RequestLetters) (r : List String)
    (hsem : fetchAll (buildQuery l) = pgEval db l)
    (hok : findLetters verify fetchAll authHeader l = Resp.ok r) :
    r = db.filter (fun w => pgRowMatches l w) := by
  have h := findLetters_ok_fetch verify fetchAll authHeader l r hok
  rw [hsem] at h
  unfold pgEval at h
  by_cases hinc : l.incorrect.isEmpty
  · rw [if_pos hinc] at h
    exact absurd h (by simp)
  · rw [if_neg hinc] at h
    simpa using h.symm

/-- The empty `LIKE` pattern matches exactly the empty word. -/
theorem like_nil (w : List Char) : like [] w = true ↔ w = [] := by
  cases w with
  | nil => simp [like, likeAux]
  | cons x xs => simp [like, likeAux]

/-- An empty `exact` makes the `ILIKE` conjunct accept only empty words. -/
theorem matchesIlike_empty_pattern (w : String) (h : matchesIlike "" w = true) :
    lowerChars w = [] := by
  unfold matchesIlike at h
  rw [show lowerChars "" = [] from rfl] at h
  exact (like_nil (lowerChars w)).mp h

/-- A success response implies that execution reached the corpus query. -/
theorem findLetters_ok_queried (verify : String → Option Bool)
    (fetchAll : String → Except DbError (List String))
    (authHeader : Option (Option String)) (l : RequestLetters) (r : List String)
    (hok : findLetters verify fetchAll authHeader l = Resp.ok r) :
    corpusQueried verify authHeader = true := by
  unfold findLetters at hok
  unfold corpusQueried
  cases hgb : getBearerToken authHeader with
  | none =>
    rw [hgb] at hok
    exact absurd hok (by simp)
  | some tok =>
    rw [hgb] at hok
    by_cases hv : (verify tok).getD false = true
    · exact hv
    · rw [Bool.not_eq_true] at hv
      simp only [hv, Bool.not_false, if_true] at hok
      exact absurd hok (by simp)

/-- After `trim_start_matches`, the (nonempty) pattern is no longer a
prefix of the result: every leading repetition has been removed. -/
theorem stripAllAux_no_strip (p : List Char) (hp : p ≠ []) :
    ∀ fuel s, s.length ≤ fuel → p.isPrefixOf (stripAllAux fuel p s) = false := by
  intro fuel
  induction fuel with
  | zero =>
    intro s hs
    have hnil : s = [] := List.eq_nil_of_length_eq_zero (Nat.le_zero.mp hs)
    subst hnil
    rw [show stripAllAux 0 p [] = [] from rfl]
    cases p with
    | nil => exact absurd rfl hp
    | cons c cs => rfl
  | succ n ih =>
    intro s hs
    by_cases hpre : p.isPrefixOf s = true
    · have hcond : (!p.isEmpty && p.isPrefixOf s) = true := by
        simp [hpre, List.isEmpty_iff, hp]
      rw [show stripAllAux (n + 1) p s =
            (if !p.isEmpty && p.isPrefixOf s then stripAllAux n p (List.drop p.length s)
             else s) from rfl, if_pos hcond]
      have hplen : 1 ≤ p.length := List.length_pos.mpr hp
      exact ih (List.drop p.length s) (by
        rw [List.length_drop]
        omega)
    · rw [show stripAllAux (n + 1) p s =
            (if !p.isEmpty && p.isPrefixOf s then stripAllAux n p (List.drop p.length s)
             else s) from rfl, if_neg (by simp [hpre])]
      exact Bool.not_eq_true _ ▸ (by simpa using hpre)

/-- Reduction of `get_bearer_token` on a present, convertible header. -/
theorem getBearerToken_some_some (hv : String) :
    getBearerToken (some (some hv)) =
      (if startsWithStr hv "Bearer " = true then
        some (trimStartMatchesStr hv "Bearer ") else none) := rfl

/-- Claim C1: for every corpus snapshot and well-formed request, the
result list returned by the filter contains exactly the corpus words
satisfying all three predicates of spec §4.1 simultaneously — every
returned word satisfies the positional, required-letters and
excluded-letters predicates, and every corpus word not returned fails at
least one of them. -/
theorem claim1_filter_exact (verify : String → Option Bool)
    (fetchAll : String → Except DbError (List String))
    (authHeader : Option (Option String)) (db : List String)
    (l : RequestLetters) (r : List String) (w : String)
    (hwf : wfRequest l)
    (hsem : fetchAll (buildQuery l) = pgEval db l)
    (hok : findLetters verify fetchAll authHeader l = Resp.ok r) :
    w ∈ r ↔ (w ∈ db ∧ specMatches l w) := by
  rw [findLetters_ok_filter verify fetchAll authHeader db l r hsem hok,
    List.mem_filter, pgRowMatches_iff_specMatches l w hwf]

/-- Witness for C1: corpus `["apple", "angle"]`, request
`exact="a___e", correct="l", incorrect="p"`; the filter returns
`["angle"]`, and both membership equivalences are obtained from the
theorem. -/
theorem claim1_witness :
    (("angle" ∈ ["angle"]) ↔
      ("angle" ∈ ["apple", "angle"] ∧
        specMatches ⟨"a___e", "l", "p"⟩ "angle")) ∧
    (("apple" ∈ ["angle"]) ↔
      ("apple" ∈ ["apple", "angle"] ∧
        specMatches ⟨"a___e", "l", "p"⟩ "apple")) :=
  ⟨claim1_filter_exact alwaysValid
      (fun _ => pgEval ["apple", "angle"] ⟨"a___e", "l", "p"⟩) authedHeader
      ["apple", "angle"] ⟨"a___e", "l", "p"⟩ ["angle"] "angle"
      (by decide) rfl rfl,
    claim1_filter_exact alwaysValid
      (fun _ => pgEval ["apple", "angle"] ⟨"a___e", "l", "p"⟩) authedHeader
      ["apple", "angle"] ⟨"a___e", "l", "p"⟩ ["angle"] "apple"
      (by decide) rfl rfl⟩

/-- Claim C2: every word of a success result has the length of `exact`
and agrees with `exact` at every concretely-lettered position, the
wildcard positions being unconstrained (spec §4.1 predicate 1). -/
theorem claim2_positional (verify : String → Option Bool)
    (fetchAll : String → Except DbError (List String))
    (authHeader : Option (Option String)) (db : List String)
    (l : RequestLetters) (r : List String) (w : String)
    (hwf : wfRequest l)
    (hsem : fetchAll (buildQuery l) = pgEval db l)
    (hok : findLetters verify fetchAll authHeader l = Resp.ok r)
    (hmem : w ∈ r) :
    specPositional l.exact w := by
  rw [findLetters_ok_filter verify fetchAll authHeader db l r hsem hok,
    List.mem_filter] at hmem
  exact ((pgRowMatches_iff_specMatches l w hwf).mp hmem.2).1

/-- Witness for C2: in the run of the C1 witness, the returned word
`"angle"` satisfies the positional predicate for `exact="a___e"`. -/
theorem claim2_witness : specPositional "a___e" "angle" :=
  claim2_positional alwaysValid
    (fun _ => pgEval ["apple", "angle"] ⟨"a___e", "l", "p"⟩) authedHeader
    ["apple", "angle"] ⟨"a___e", "l", "p"⟩ ["angle"] "angle"
    (by decide) rfl rfl (by decide)

/-- Claim C3 counterexample: with `exact=""` (and a valid credential) the
handler does NOT fail with a bad-request signal — it queries the corpus
(`corpusQueried = true`) and returns a success result (`Resp.ok []`).
The handler has no validation of `exact` and no bad-request response at
all. -/
theorem claim3_counterexample :
    findLetters alwaysValid (fun _ => pgEval ["apple"] ⟨"", "", "p"⟩)
        authedHeader ⟨"", "", "p"⟩ = Resp.ok [] ∧
      corpusQueried alwaysValid authedHeader = true :=
  ⟨rfl, rfl⟩

/-- Claim C3 amended: the filter performs no validation of `exact`; an
empty `exact` is spliced into the query like any other value, the corpus
IS queried, and a success result is returned whose members can only be
empty words (`ILIKE ''` matches nothing else). -/
theorem claim3_amended (verify : String → Option Bool)
    (fetchAll : String → Except DbError (List String))
    (authHeader : Option (Option String)) (db : List String)
    (l : RequestLetters) (r : List String)
    (hex : l.exact = "")
    (hsem : fetchAll (buildQuery l) = pgEval db l)
    (hok : findLetters verify fetchAll authHeader l = Resp.ok r) :
    corpusQueried verify authHeader = true ∧ ∀ w ∈ r, lowerChars w = [] := by
  refine ⟨findLetters_ok_queried verify fetchAll authHeader l r hok, ?_⟩
  intro w hw
  rw [findLetters_ok_filter verify fetchAll authHeader db l r hsem hok,
    List.mem_filter] at hw
  have hrow := hw.2
  unfold pgRowMatches at hrow
  rw [Bool.and_eq_true, Bool.and_eq_true] at hrow
  obtain ⟨⟨hA, -⟩, -⟩ := hrow
  rw [hex] at hA
  exact matchesIlike_empty_pattern w hA

/-- Witness for the amended C3: corpus `["", "apple"]` and the empty
request; the handler queries the corpus and returns `[""]`, whose single
member is the empty word. -/
theorem claim3_witness :
    corpusQueried alwaysValid authedHeader = true ∧ lowerChars "" = [] :=
  ⟨(claim3_amended alwaysValid (fun _ => pgEval ["", "apple"] ⟨"", "", "p"⟩)
      authedHeader ["", "apple"] ⟨"", "", "p"⟩ [""] rfl rfl rfl).1,
    (claim3_amended alwaysValid (fun _ => pgEval ["", "apple"] ⟨"", "", "p"⟩)
      authedHeader ["", "apple"] ⟨"", "", "p"⟩ [""] rfl rfl rfl).2 ""
      (by decide)⟩

/-- Claim C4 (code bug): with `excluded` empty the spec makes predicate 3
vacuously true, and the word `"angle"` of the corpus satisfies all three
predicates; but the handler splices the empty string into the regex
`.*[].*`, whose bracket expression PostgreSQL rejects, so the invocation
surfaces a server error instead of the match list. -/
theorem claim4_empty_excluded_bug :
    findLetters alwaysValid (fun _ => pgEval ["angle"] ⟨"a___e", "l", ""⟩)
        authedHeader ⟨"a___e", "l", ""⟩ = Resp.serverError ∧
      specMatches ⟨"a___e", "l", ""⟩ "angle" :=
  ⟨rfl, by decide⟩

/-- Claim C5: the corpus is never queried unless token verification
succeeds; whenever the bearer credential is missing, cannot be evaluated
(`verify_token` errs) or is invalid, the caller receives the unauthorized
response and the filter does not run. -/
theorem claim5_auth_gate (verify : String → Option Bool)
    (fetchAll : String → Except DbError (List String))
    (authHeader : Option (Option String)) (l : RequestLetters)
    (hbad : ∀ tok, getBearerToken authHeader = some tok → verify tok ≠ some true) :
    corpusQueried verify authHeader = false ∧
      findLetters verify fetchAll authHeader l = Resp.unauthorized := by
  unfold corpusQueried findLetters
  cases hgb : getBearerToken authHeader with
  | none => exact ⟨rfl, rfl⟩
  | some tok =>
    have hv : (verify tok).getD false = false := by
      cases hveq : verify tok with
      | none => rfl
      | some b =>
        cases b with
        | false => rfl
        | true => exact absurd hveq (hbad tok hgb)
    exact ⟨hv, by simp [hv]⟩

/-- Witness for C5: a header carrying a syntactically fine bearer token
that the verifier rejects; the corpus is not queried and the response is
unauthorized. -/
theorem claim5_witness :
    corpusQueried neverValid (some (some "Bearer t")) = false ∧
      findLetters neverValid (fun _ => Except.ok []) (some (some "Bearer t"))
        ⟨"a___e", "l", "p"⟩ = Resp.unauthorized :=
  claim5_auth_gate neverValid (fun _ => Except.ok []) (some (some "Bearer t"))
    ⟨"a___e", "l", "p"⟩
    (by
      intro tok htok
      rw [show getBearerToken (some (some "Bearer t")) = some "t" from rfl]
        at htok
      injection htok with heq
      rw [← heq]
      simp [neverValid])

/-- Claim C6 counterexample: with the literal request `exact="a???e"`,
`required="l"`, `excluded="p"` over the corpus
`{"apple","angle","ankle","amble"}`, the filter returns the EMPTY list,
not `{"angle","ankle","amble"}`: `?` has no wildcard meaning to `ILIKE`,
so the pattern matches no five-letter word. -/
theorem claim6_counterexample :
    findLetters alwaysValid
        (fun _ => pgEval ["apple", "angle", "ankle", "amble"] ⟨"a???e", "l", "p"⟩)
        authedHeader ⟨"a???e", "l", "p"⟩ = Resp.ok [] ∧
      Resp.ok ([] : List String) ≠ Resp.ok ["angle", "ankle", "amble"] :=
  ⟨rfl, by decide⟩

/-- Claim C6 amended: with the wildcard marker the corpus pattern
language actually accepts (`_`, the `ILIKE` single-character wildcard),
i.e. `exact="a___e"`, the filter returns exactly
`["angle", "ankle", "amble"]` on that corpus. -/
theorem claim6_amended :
    findLetters alwaysValid
        (fun _ => pgEval ["apple", "angle", "ankle", "amble"] ⟨"a___e", "l", "p"⟩)
        authedHeader ⟨"a___e", "l", "p"⟩ =
      Resp.ok ["angle", "ankle", "amble"] := rfl

/-- Claim C7: two invocations of the filter against the same corpus
snapshot (same collaborator behaviour) and the same request yield
identical result lists. -/
theorem claim7_idempotent (verify : String → Option Bool)
    (fetchAll : String → Except DbError (List String))
    (authHeader : Option (Option String)) (l : RequestLetters)
    (r₁ r₂ : List String)
    (h1 : findLetters verify fetchAll authHeader l = Resp.ok r₁)
    (h2 : findLetters verify fetchAll authHeader l = Resp.ok r₂) :
    r₁ = r₂ := by
  rw [h1] at h2
  injection h2

/-- Witness for C7: two runs of the concrete scenario both return
`["angle", "ankle", "amble"]`. -/
theorem claim7_witness :
    (["angle", "ankle", "amble"] : List String) = ["angle", "ankle", "amble"] :=
  claim7_idempotent alwaysValid
    (fun _ => pgEval ["apple", "angle", "ankle", "amble"] ⟨"a___e", "l", "p"⟩)
    authedHeader ⟨"a___e", "l", "p"⟩ ["angle", "ankle", "amble"]
    ["angle", "ankle", "amble"] rfl rfl

/-- Claim C8: the query is built by splicing the caller's strings into
the SQL text without parameterization or escaping; a quote character in
`exact` changes the code structure of the executed query — here caller
text `OR word ~* ...` lands outside every string literal, which a
parameterized query could never produce. -/
theorem claim8_injection :
    ∃ l₁ l₂ : RequestLetters,
      l₁.correct = l₂.correct ∧ l₁.incorrect = l₂.incorrect ∧
      sqlCodeSegments (buildQuery l₁) ≠ sqlCodeSegments (buildQuery l₂) ∧
      " OR word ~* " ∈ sqlCodeSegments (buildQuery l₁) ∧
      " OR word ~* " ∉ sqlCodeSegments (buildQuery l₂) := by
  refine ⟨⟨"x\x27 OR word ~* \x27y", "", "z"⟩, ⟨"a", "", "z"⟩, rfl, rfl,
    ?_, ?_, ?_⟩ <;> decide

/-- Claim C9: when the corpus query fails, the invocation surfaces the
server-error response — nothing else, no partial word list. -/
theorem claim9_corpus_failure (verify : String → Option Bool)
    (fetchAll : String → Except DbError (List String))
    (authHeader : Option (Option String)) (l : RequestLetters)
    (tok : String) (e : DbError)
    (htok : getBearerToken authHeader = some tok)
    (hval : verify tok = some true)
    (herr : fetchAll (buildQuery l) = Except.error e) :
    findLetters verify fetchAll authHeader l = Resp.serverError := by
  unfold findLetters
  rw [htok]
  simp [hval, herr]

/-- Witness for C9: an unreachable corpus turns the authorized concrete
scenario into a server-error response. -/
theorem claim9_witness :
    findLetters alwaysValid (fun _ => Except.error DbError.unavailable)
        authedHeader ⟨"a___e", "l", "p"⟩ = Resp.serverError :=
  claim9_corpus_failure alwaysValid (fun _ => Except.error DbError.unavailable)
    authedHeader ⟨"a___e", "l", "p"⟩ "token123" DbError.unavailable rfl rfl rfl

/-- Claim C10: `get_bearer_token` returns a token exactly when the
`Authorization` header is present, converts to a string and starts with
`"Bearer "`; the token never retains a leading `"Bearer "` (every leading
repetition is removed by `trim_start_matches`), so the header
`"Bearer Bearer abc"` yields `"abc"`, not `"Bearer abc"`. -/
theorem claim10_bearer_token :
    (∀ h : Option (Option String),
        (∃ tok, getBearerToken h = some tok) ↔
          (∃ hv, h = some (some hv) ∧ startsWithStr hv "Bearer " = true)) ∧
      (∀ (h : Option (Option String)) tok, getBearerToken h = some tok →
        startsWithStr tok "Bearer " = false) ∧
      getBearerToken (some (some "Bearer Bearer abc")) = some "abc" ∧
      getBearerToken (some (some "Bearer abc")) = some "abc" ∧
      getBearerToken (some (some "Token abc")) = none ∧
      getBearerToken (some none) = none ∧
      getBearerToken (none : Option (Option String)) = none := by
  refine ⟨?_, ?_, rfl, rfl, rfl, rfl, rfl⟩
  · intro h
    constructor
    · rintro ⟨tok, htok⟩
      cases h with
      | none => exact absurd htok (by simp [getBearerToken])
      | some ho =>
        cases ho with
        | none => exact absurd htok (by simp [getBearerToken])
        | some hv =>
          by_cases hsw : startsWithStr hv "Bearer " = true
          · exact ⟨hv, rfl, hsw⟩
          · rw [getBearerToken_some_some, if_neg hsw] at htok
            exact absurd htok (by simp)
    · rintro ⟨hv, rfl, hsw⟩
      exact ⟨trimStartMatchesStr hv "Bearer ",
        by rw [getBearerToken_some_some, if_pos hsw]⟩
  · intro h tok htok
    cases h with
    | none => exact absurd htok (by simp [getBearerToken])
    | some ho =>
      cases ho with
      | none => exact absurd htok (by simp [getBearerToken])
      | some hv =>
        rw [getBearerToken_some_some] at htok
        by_cases hsw : startsWithStr hv "Bearer " = true
        · rw [if_pos hsw] at htok
          injection htok with heq
          rw [← heq]
          unfold startsWithStr trimStartMatchesStr
          rw [show (String.mk
                (stripAllAux hv.toList.length "Bearer ".toList hv.toList)).toList =
              stripAllAux hv.toList.length "Bearer ".toList hv.toList from rfl]
          exact stripAllAux_no_strip _ (by decide) _ _ (Nat.le_refl _)
        · rw [if_neg hsw] at htok
          exact absurd htok (by simp)

/-- Witness for C10: the double-prefixed header strips to a token that no
longer starts with `"Bearer "`. -/
theorem claim10_witness : startsWithStr "abc" "Bearer " = false :=
  claim10_bearer_token.2.1 (some (some "Bearer Bearer abc")) "abc" rfl

end Solver

